import Mathlib

/-!
# Verification of the TFTP connection state machine (`src/connection.js`)

This file gives a shallow embedding of the per-connection logic of the
read-only TFTP server: the binary packet reader (`Packet.prototype.uint16`,
`cstr`, `endReached`), the error-code taxonomy (`getErrorCode`), request
parsing (state `init`), option negotiation (state `oack`), the block
transfer loop (states `prepareDataPacket` / `sendDataPacket`), and the
terminal handler (`final`).

Modelling conventions:
* byte buffers are `List Nat` (each entry a byte value);
* JS numbers that are used as naturals are `Nat`;
* `Buffer.readUInt16BE` throws `ERR_OUT_OF_RANGE` when fewer than two bytes
  remain, and `Buffer.writeUInt16BE` when the value exceeds 65535 or the
  offset leaves fewer than two bytes — both modelled as `Option`, and a
  failing write inside a state handler crashes the connection FSM;
* inbound datagrams are only ever inspected through `readUInt16BE(0)` and
  `readUInt16BE(2)` by the connection code, so they are modelled by those
  two parsed fields;
* the event semantics of the `edfsm` harness (`i`, `o`, `next`,
  `next.timeout`) is modelled from the spec: a state's handler runs on
  entry, may emit datagrams, and then either transitions immediately or
  waits; while waiting, exactly one inbound-datagram listener and one
  timeout are armed, and a datagram the listener's guard rejects leaves the
  waiting state unchanged.
-/

/-- A byte buffer (Node `Buffer`), one `Nat` per byte. -/
abbrev Bytes := List Nat

/-- `buf.readUInt16BE(ptr)`: big-endian 16-bit read; Node throws
`ERR_OUT_OF_RANGE` when fewer than 2 bytes remain past `ptr`, modelled as
`none`. -/
def readUInt16BE (buf : Bytes) (ptr : Nat) : Option Nat :=
  if ptr + 2 ≤ buf.length then some (256 * buf.getD ptr 0 + buf.getD (ptr + 1) 0)
  else none

/-- Number of leading nonzero bytes of a buffer: how far the scan
`while (this.buf[this.ptr]) this.ptr++` runs before hitting a zero byte or
the end of the buffer (out-of-range indexing yields `undefined`, which is
falsy). -/
def cstrScan : Bytes → Nat
  | [] => 0
  | b :: t => if b ≠ 0 then cstrScan t + 1 else 0

/-- The cursor position where `Packet.prototype.cstr`'s scan stops: the
first index `≥ ptr` holding a zero byte, or `buf.length` if none. -/
def cstrEnd (buf : Bytes) (ptr : Nat) : Nat :=
  ptr + cstrScan (buf.drop ptr)

/-- `Packet.prototype.cstr`: returns the bytes strictly before the scan's
stop position (`buf.slice(start, this.ptr)`) and the new cursor, one past
the terminator (`this.ptr++`). -/
def cstr (buf : Bytes) (ptr : Nat) : Bytes × Nat :=
  ((buf.drop ptr).take (cstrEnd buf ptr - ptr), cstrEnd buf ptr + 1)

/-- `Packet.prototype.endReached`: `this.ptr > this.buf.length`. -/
def endReached (buf : Bytes) (ptr : Nat) : Bool :=
  buf.length < ptr

/-- `getErrorCode`: maps an error message to the TFTP error code
(default 0). -/
def getErrorCode (message : String) : Nat :=
  if message = "File not found." then 1
  else if message = "Access violation." then 2
  else if message = "Disk full or allocation exceeded." then 3
  else if message = "Illegal TFTP operation." then 4
  else if message = "Unknown transfer ID." then 5
  else if message = "File already exists." then 6
  else if message = "No such user." then 7
  else 0

/-- Bytes of a JS string written with `buf.write` (all messages and option
names in the source are ASCII, where UTF-8 bytes coincide with code
points). -/
def strBytes (s : String) : Bytes :=
  s.data.map Char.toNat

/-- The two big-endian bytes `writeUInt16BE` stores for a value. -/
def uint16BEbytes (v : Nat) : Bytes :=
  [v / 256 % 256, v % 256]

/-- `Buffer.alloc(n)`: a zero-filled buffer. -/
def bufAlloc (n : Nat) : Bytes :=
  List.replicate n 0

/-- `buf.writeUInt16BE(v, off)`: store the big-endian bytes of `v` at
`off` and `off+1`. Node throws `ERR_OUT_OF_RANGE` when the value exceeds
65535 or fewer than two bytes remain past `off` — modelled as `none`. -/
def bufWrite16BE (buf : Bytes) (off v : Nat) : Option Bytes :=
  if v < 65536 ∧ off + 2 ≤ buf.length then
    some ((buf.set off (v / 256 % 256)).set (off + 1) (v % 256))
  else none

/-- `buf.write(s, off)`: overlay the string's bytes at `off`, truncated at
the end of the buffer. -/
def bufWriteStr (buf : Bytes) (off : Nat) (s : String) : Bytes :=
  buf.take off ++ (strBytes s).take (buf.length - off) ++ buf.drop (off + (strBytes s).length)

/-- The ERROR datagram built by the `final` handler:
`Buffer.alloc(5 + err.message.length)`, opcode 5 at 0, mapped error code at
2, the message at 4 (the zero-fill leaves the final byte untouched). Both
16-bit writes are statically in range (values 5 and at most 7, offsets 0
and 2 of a buffer of at least 5 bytes), so the `getD []` default is dead
code. -/
def mkError (msg : String) : Bytes :=
  bufWriteStr
    (((bufWrite16BE (bufAlloc (5 + msg.length)) 0 5).bind
      (fun e => bufWrite16BE e 2 (getErrorCode msg))).getD [])
    4 msg

/-- JS `Map` as an insertion-ordered association list. -/
abbrev OptMap := List (Bytes × Bytes)

/-- `Map.prototype.set`: overwrite the value in place if the key is
present (keeping its position), else append. -/
def mapSet (m : OptMap) (k v : Bytes) : OptMap :=
  match m with
  | [] => [(k, v)]
  | (k', v') :: rest => if k' = k then (k, v) :: rest else (k', v') :: mapSet rest k v

/-- `Map.prototype.get`. -/
def mapGet? (m : OptMap) (k : Bytes) : Option Bytes :=
  match m with
  | [] => none
  | (k', v') :: rest => if k' = k then some v' else mapGet? rest k

/-- The keys of the mapping in insertion order. -/
def keysOf (m : OptMap) : List Bytes :=
  m.map Prod.fst

/-- Insert a list of key/value pairs in order via `mapSet`. -/
def insertAll (m : OptMap) (ps : List (Bytes × Bytes)) : OptMap :=
  ps.foldl (fun m kv => mapSet m kv.1 kv.2) m

/-- First-occurrence deduplication with an accumulator of already-seen
keys: the key order a key-unique insertion preserves. (Statement helper,
not part of the source.) -/
def keepFirstAux (seen : List Bytes) : List Bytes → List Bytes
  | [] => []
  | k :: ks => if k ∈ seen then keepFirstAux seen ks else k :: keepFirstAux (k :: seen) ks

/-- First-occurrence deduplication. (Statement helper, not part of the
source.) -/
def keepFirst (l : List Bytes) : List Bytes :=
  keepFirstAux [] l

/-- The key/value string pairs the option loop of `init` reads, in order
(including pairs with empty keys, which the loop drops from the mapping).
The `fuel` argument only makes the recursion structural; the loop always
exits through its `endReached` test before the fuel runs out (see the
termination theorems below). -/
def parsePairsF (buf : Bytes) : Nat → Nat → List (Bytes × Bytes)
  | 0, _ => []
  | fuel + 1, ptr =>
    if endReached buf ptr then []
    else ((cstr buf ptr).1, (cstr buf (cstr buf ptr).2).1) ::
      parsePairsF buf fuel (cstr buf (cstr buf ptr).2).2

/-- The key/value string pairs of the option region, with the fuel bound
that the loop never exhausts. -/
def parsePairs (buf : Bytes) (ptr : Nat) : List (Bytes × Bytes) :=
  parsePairsF buf (buf.length + 2 - ptr) ptr

/-- The option-parsing loop of `init` (`while (!req.endReached()) ...`),
returning the options mapping and the final cursor. The `fuel` argument
only makes the recursion structural; the loop always exits through its
`endReached` test before the fuel runs out (see the termination theorems
below). -/
def parseOptsF (buf : Bytes) : Nat → Nat → OptMap → OptMap × Nat
  | 0, ptr, acc => (acc, ptr)
  | fuel + 1, ptr, acc =>
    if endReached buf ptr then (acc, ptr)
    else parseOptsF buf fuel (cstr buf (cstr buf ptr).2).2
      (if (cstr buf ptr).1 = [] then acc
       else mapSet acc (cstr buf ptr).1 (cstr buf (cstr buf ptr).2).1)

/-- The option-parsing loop of `init`, with the fuel bound that the loop
never exhausts. -/
def parseOpts (buf : Bytes) (ptr : Nat) (acc : OptMap) : OptMap × Nat :=
  parseOptsF buf (buf.length + 2 - ptr) ptr acc

/-- Outcome of running the `init` state handler on the request buffer:
a thrown exception (`readUInt16BE` out of range), `next(new Error(msg))`,
or `next('getData')` with the parsed fields stored on the context. -/
inductive InitResult
  | crash
  | err (msg : String)
  | ok (filename mode : Bytes) (options : OptMap)
deriving DecidableEq

/-- The `init` state handler: check the opcode is 1 (RRQ), read a
non-empty filename, read the mode, then run the option loop. -/
def init (request : Bytes) : InitResult :=
  match readUInt16BE request 0 with
  | none => .crash
  | some op =>
    if op ≠ 1 then .err "Illegal TFTP operation."
    else
      let fp := cstr request 2
      if fp.1 = [] then .err "File not found."
      else
        let mp := cstr request fp.2
        .ok fp.1 mp.1 (parseOpts request mp.2 []).1

/-- The ERROR datagrams the `final` handler emits for an `init` outcome:
one packet when `init` ended with `next(new Error(msg))`, none otherwise
(a thrown exception never reaches `final` with an error argument). -/
def errorDatagrams : InitResult → List Bytes
  | .err msg => [mkError msg]
  | _ => []

/-- Whether `init` reached `next('getData')` — the only outcome that goes
on to route resolution. -/
def InitResult.isOk : InitResult → Bool
  | .ok _ _ _ => true
  | _ => false

/-- Numeric value of a plain decimal numeral, as JS string-to-number
coercion gives on such strings; `none` when the string is not a plain
decimal numeral (JS would then produce `NaN` — outside this `Nat` model;
no claim exercises that case). -/
def decValue? (s : Bytes) : Option Nat :=
  if s ≠ [] ∧ s.all (fun c => decide (48 ≤ c ∧ c ≤ 57)) then
    some (s.foldl (fun n c => 10 * n + (c - 48)) 0)
  else none

/-- JS `String(n)` for a natural number: its decimal digits. -/
def natStr (n : Nat) : Bytes :=
  strBytes (toString n)

/-- One entry of the OACK option mapping in the `oack` state: returns the
updated `ctx.blocksize` and the bytes this option contributes to the
packet (`` `${k}\0${acceptedValue}\0` `` when an accepted value was set,
nothing otherwise). -/
def oackOption (dataLen bs : Nat) (k v : Bytes) : Nat × Bytes :=
  if k = strBytes "blksize" then
    match decValue? v with
    | some n => (min n 1428, k ++ [0] ++ natStr (min n 1428) ++ [0])
    | none => (bs, [])
  else if k = strBytes "windowsize" then (bs, k ++ [0] ++ strBytes "1" ++ [0])
  else if k = strBytes "tsize" then (bs, k ++ [0] ++ natStr dataLen ++ [0])
  else (bs, [])

/-- The `oack` state's pass over `ctx.options.entries()` in insertion
order, threading `ctx.blocksize` and concatenating the option buffers. -/
def oackFold (dataLen : Nat) (acc : Nat × Bytes) (opts : OptMap) : Nat × Bytes :=
  opts.foldl (fun acc kv =>
    let r := oackOption dataLen acc.1 kv.1 kv.2
    (r.1, acc.2 ++ r.2)) acc

/-- The per-connection mutable context (`ctx`). `ctx.try` is called
`tryCount` (`try` is a Lean keyword); the `clientKey` is omitted because a
single connection only ever addresses its own client. -/
structure Ctx where
  filename : Bytes := []
  mode : Bytes := []
  options : OptMap := []
  data : Bytes := []
  block : Nat := 0
  blocksize : Nat := 512
  tryCount : Nat := 0
  packet : Bytes := []
deriving DecidableEq

/-- The success continuation `getData` passes to a route handler: store
the byte source and initialise the transfer fields before `next('oack')`. -/
def getDataSuccess (ctx : Ctx) (data : Bytes) : Ctx :=
  { ctx with data := data, block := 0, blocksize := 512 }

/-- An inbound datagram as the armed listeners see it: the connection code
reads only `msg.readUInt16BE(0)` (opcode) and `msg.readUInt16BE(2)` (block
number), so a datagram is modelled by those two fields. -/
structure Msg where
  op : Nat
  blk : Nat
deriving DecidableEq

/-- The states of the transfer half of the FSM (after route resolution). -/
inductive State
  | oackSt
  | prepareDataPacket
  | sendDataPacket
deriving DecidableEq

/-- A configuration of the transfer FSM. Modelled from the spec: the
`edfsm` harness is not part of `src/`; §5 of the spec fixes its event
semantics (one armed listener and one pending timeout while a state
waits; a terminal state cancels both). `run s ctx` is a scheduled entry
of state `s`; `waiting s ctx` is state `s` with its listener and timeout
armed; `finished errOut` is the terminal state together with the ERROR
datagrams emitted by `final` (empty on silent termination); `crashed` is
an uncaught exception thrown inside a state handler (the process dies:
nothing further is sent and `final`'s error path is never reached). -/
inductive Config
  | run (s : State) (ctx : Ctx)
  | waiting (s : State) (ctx : Ctx)
  | finished (errOut : List Bytes)
  | crashed
deriving DecidableEq

/-- An event delivered to a waiting configuration: an inbound datagram or
the pending timeout firing. -/
inductive Event
  | msg (m : Msg)
  | timeout
deriving DecidableEq

/-- Entry of a state handler: the datagrams it sends and the resulting
configuration. Mirrors the `oack`, `prepareDataPacket` and
`sendDataPacket` handlers of the source. The OACK header write is
statically in range (value 6, offset 0 of a 2-byte buffer), so its
`getD []` default is dead code; the DATA header writes opcode 3 (always
in range) and then the unbounded wire block number `ctx.block + 1`, whose
out-of-range throw crashes the handler. -/
def enter : State → Ctx → Config × List Bytes
  | .oackSt, ctx =>
    if ctx.tryCount > 3 then (.finished [], [])
    else
      let ctx1 : Ctx := { ctx with tryCount := ctx.tryCount + 1 }
      if ctx1.options = [] then (.run .prepareDataPacket ctx1, [])
      else
        let r := oackFold ctx1.data.length (ctx1.blocksize, []) ctx1.options
        let packet := (bufWrite16BE (bufAlloc 2) 0 6).getD [] ++ r.2
        (.waiting .oackSt { ctx1 with blocksize := r.1 }, [packet])
  | .prepareDataPacket, ctx =>
    match bufWrite16BE (bufAlloc 4) 0 3 with
    | none => (.crashed, [])
    | some h1 =>
      match bufWrite16BE h1 2 (ctx.block + 1) with
      | none => (.crashed, [])
      | some header =>
        let body := (ctx.data.drop (ctx.block * ctx.blocksize)).take ctx.blocksize
        (.run .sendDataPacket
          { ctx with packet := header ++ body, block := ctx.block + 1, tryCount := 0 }, [])
  | .sendDataPacket, ctx =>
    if ctx.tryCount > 3 then (.finished [], [])
    else (.waiting .sendDataPacket { ctx with tryCount := ctx.tryCount + 1 }, [ctx.packet])

/-- Deliver one event to a configuration. On a waiting state this is the
armed listener (for a datagram) or the armed timeout; a datagram the
listener's guard rejects changes nothing. `run` and `finished`
configurations have no listener or timeout armed, so events are inert. -/
def deliver : Config → Event → Config × List Bytes
  | .waiting .oackSt ctx, .msg m =>
    if m.op ≠ 4 then (.waiting .oackSt ctx, [])
    else if m.blk ≠ 0 then (.waiting .oackSt ctx, [])
    else (.run .prepareDataPacket ctx, [])
  | .waiting .oackSt ctx, .timeout => (.run .oackSt ctx, [])
  | .waiting .sendDataPacket ctx, .msg m =>
    if m.op ≠ 4 then (.waiting .sendDataPacket ctx, [])
    else if m.blk ≠ ctx.block then (.waiting .sendDataPacket ctx, [])
    else if ctx.packet.length ≠ ctx.blocksize + 4 then (.finished [], [])
    else (.run .prepareDataPacket ctx, [])
  | .waiting .sendDataPacket ctx, .timeout => (.run .sendDataPacket ctx, [])
  | c, _ => (c, [])

/-- Drive the FSM for a bounded number of scheduler steps: a scheduled
entry executes, and a waiting state receives the event `pick` chooses.
Returns the final configuration and all datagrams sent along the way. -/
def runWith (pick : State → Ctx → Event) : Nat → Config → Config × List Bytes
  | 0, c => (c, [])
  | _ + 1, .finished e => (.finished e, [])
  | _ + 1, .crashed => (.crashed, [])
  | fuel + 1, .run s ctx =>
    let r := enter s ctx
    let r2 := runWith pick fuel r.1
    (r2.1, r.2 ++ r2.2)
  | fuel + 1, .waiting s ctx =>
    let r := deliver (.waiting s ctx) (pick s ctx)
    let r2 := runWith pick fuel r.1
    (r2.1, r.2 ++ r2.2)

/-- The event choice modelling a client that acknowledges every packet:
each waiting state receives an ACK carrying the expected block number. -/
def ackedPick (s : State) (ctx : Ctx) : Event :=
  .msg ⟨4, match s with | .oackSt => 0 | _ => ctx.block⟩

/-- A run in which every sent packet is acknowledged with the matching
block number. -/
def runAcked : Nat → Config → Config × List Bytes :=
  runWith ackedPick

/-- A run in which no ACK ever arrives: every waiting state times out. -/
def runTimeouts : Nat → Config → Config × List Bytes :=
  runWith (fun _ _ => .timeout)

/-- Whether a configuration is terminal. -/
def Config.isFinished : Config → Bool
  | .finished _ => true
  | _ => false

/-- Value of the last occurrence of a key in a pair list. (Statement
helper, not part of the source.) -/
def lastVal? : List (Bytes × Bytes) → Bytes → Option Bytes
  | [], _ => none
  | (k', v') :: rest, k =>
    match lastVal? rest k with
    | some v => some v
    | none => if k' = k then some v' else none

/-- The DATA packet `prepareDataPacket` builds for the context's current
block when the wire block number `ctx.block + 1` is within the 16-bit
range (see `enter_prepare`): header opcode 3 and the big-endian block
number, followed by the slice `[block*blocksize, (block+1)*blocksize)` of
the data source. -/
def dataPacket (ctx : Ctx) : Bytes :=
  [0, 3, (ctx.block + 1) / 256 % 256, (ctx.block + 1) % 256] ++
    (ctx.data.drop (ctx.block * ctx.blocksize)).take ctx.blocksize

/-- The scan count never exceeds the buffer length. -/
theorem cstrScan_le (l : Bytes) : cstrScan l ≤ l.length := by
  induction l with
  | nil => simp [cstrScan]
  | cons b t ih =>
    rw [cstrScan]
    split
    · simpa using ih
    · simp

/-- The scan of `cstr` never moves the cursor backwards. -/
theorem cstrEnd_ge (buf : Bytes) (ptr : Nat) : ptr ≤ cstrEnd buf ptr :=
  Nat.le_add_right ptr _

/-- The scan of `cstr` stops no later than the end of the buffer: every
byte it finds truthy lies strictly inside the buffer. -/
theorem cstrEnd_le (buf : Bytes) (ptr : Nat) (h : ptr ≤ buf.length) :
    cstrEnd buf ptr ≤ buf.length := by
  have h1 := cstrScan_le (buf.drop ptr)
  simp only [List.length_drop] at h1
  unfold cstrEnd
  omega

/-- Whenever the fuel is at least the loop measure `buf.length + 2 - ptr`,
the option loop halts through its `endReached` test — the final cursor is
past the end of the buffer (the cursor grows by at least two per
iteration, so the measure shrinks faster than the fuel). -/
theorem parseOptsF_endReached (buf : Bytes) :
    ∀ fuel ptr acc, buf.length + 2 - ptr ≤ fuel →
      endReached buf (parseOptsF buf fuel ptr acc).2 = true := by
  intro fuel
  induction fuel with
  | zero =>
    intro ptr acc hle
    simp only [parseOptsF, endReached, decide_eq_true_eq]
    omega
  | succ fuel ih =>
    intro ptr acc hle
    rw [parseOptsF]
    split
    · rename_i hr
      exact hr
    · rename_i hr
      simp only [endReached, decide_eq_true_eq, Nat.not_lt] at hr
      apply ih
      have h1 := cstrEnd_ge buf ptr
      have h2 := cstrEnd_ge buf (cstrEnd buf ptr + 1)
      simp only [cstr]
      omega

/-- The option loop of `init` always halts with `endReached` true. -/
theorem parseOpts_endReached (buf : Bytes) (ptr : Nat) (acc : OptMap) :
    endReached buf (parseOpts buf ptr acc).2 = true :=
  parseOptsF_endReached buf _ ptr acc le_rfl

/-- Claim C9: for every finite request buffer, the option-parsing loop in
the `init` state terminates: each `cstr` call advances the read cursor by
at least one byte and never scans a truthy byte at or past the buffer end
(its stop position is at most `buf.length`), so `endReached` eventually
becomes true — the loop's final cursor satisfies it. -/
theorem cstr_advances_and_parse_terminates (buf : Bytes) (ptr : Nat)
    (h : ptr ≤ buf.length) :
    ptr + 1 ≤ (cstr buf ptr).2
    ∧ cstrEnd buf ptr ≤ buf.length
    ∧ ∀ acc, endReached buf (parseOpts buf ptr acc).2 = true := by
  refine ⟨?_, cstrEnd_le buf ptr h, fun acc => parseOpts_endReached buf ptr acc⟩
  have := cstrEnd_ge buf ptr
  simp only [cstr]
  omega

/-- Witness for C9 at the concrete buffer `[97, 0]`, cursor 0. -/
theorem cstr_advances_and_parse_terminates_witness :
    0 + 1 ≤ (cstr [97, 0] 0).2
    ∧ cstrEnd [97, 0] 0 ≤ [97, 0].length
    ∧ endReached [97, 0] (parseOpts [97, 0] 0 []).2 = true :=
  ⟨(cstr_advances_and_parse_terminates [97, 0] 0 (by decide)).1,
   (cstr_advances_and_parse_terminates [97, 0] 0 (by decide)).2.1,
   (cstr_advances_and_parse_terminates [97, 0] 0 (by decide)).2.2 []⟩

/-- Claim C7: a request whose first 16-bit field is not 1 makes `init`
fail with "Illegal TFTP operation.", so the connection terminates emitting
the single ERROR datagram with error code 4 (read back from bytes 2–3 of
the packet), and `init` never reaches `getData` — the only state that
consults the route list. -/
theorem init_bad_opcode (request : Bytes) (op : Nat)
    (hop : readUInt16BE request 0 = some op) (hne : op ≠ 1) :
    init request = .err "Illegal TFTP operation."
    ∧ errorDatagrams (init request) = [mkError "Illegal TFTP operation."]
    ∧ readUInt16BE (mkError "Illegal TFTP operation.") 0 = some 5
    ∧ readUInt16BE (mkError "Illegal TFTP operation.") 2 = some 4
    ∧ (init request).isOk = false := by
  have h1 : init request = .err "Illegal TFTP operation." := by
    unfold init
    rw [hop]
    simp [hne]
  rw [h1]
  exact ⟨rfl, rfl, by decide, by decide, rfl⟩

/-- Witness for C7 at the concrete request `[0, 2]` (a WRQ). -/
theorem init_bad_opcode_witness :
    init [0, 2] = .err "Illegal TFTP operation."
    ∧ errorDatagrams (init [0, 2]) = [mkError "Illegal TFTP operation."]
    ∧ readUInt16BE (mkError "Illegal TFTP operation.") 0 = some 5
    ∧ readUInt16BE (mkError "Illegal TFTP operation.") 2 = some 4
    ∧ (init [0, 2]).isOk = false :=
  init_bad_opcode [0, 2] 2 (by decide) (by decide)

/-- Claim C8: a request with opcode 1 whose filename string is empty makes
`init` fail with "File not found.", so the connection terminates emitting
the single ERROR datagram with error code 1, and `init` never reaches
`getData` — the route list is not consulted. -/
theorem init_empty_filename (request : Bytes)
    (hop : readUInt16BE request 0 = some 1) (hfn : (cstr request 2).1 = []) :
    init request = .err "File not found."
    ∧ errorDatagrams (init request) = [mkError "File not found."]
    ∧ readUInt16BE (mkError "File not found.") 0 = some 5
    ∧ readUInt16BE (mkError "File not found.") 2 = some 1
    ∧ (init request).isOk = false := by
  have h1 : init request = .err "File not found." := by
    unfold init
    rw [hop]
    simp [hfn]
  rw [h1]
  exact ⟨rfl, rfl, by decide, by decide, rfl⟩

/-- Witness for C8 at the concrete request `[0, 1, 0]` (RRQ, empty
filename). -/
theorem init_empty_filename_witness :
    init [0, 1, 0] = .err "File not found."
    ∧ errorDatagrams (init [0, 1, 0]) = [mkError "File not found."]
    ∧ readUInt16BE (mkError "File not found.") 0 = some 5
    ∧ readUInt16BE (mkError "File not found.") 2 = some 1
    ∧ (init [0, 1, 0]).isOk = false :=
  init_empty_filename [0, 1, 0] (by decide) (by decide)

/-- Claim C10: a request shorter than 2 bytes makes the opcode read throw
(`readUInt16BE` out of range) instead of producing any TFTP ERROR
datagram; for buffers of length at least 2 the opcode read never throws,
and the rest of request parsing is total. -/
theorem init_short_request (request : Bytes) :
    (request.length < 2 → init request = .crash ∧ errorDatagrams (init request) = [])
    ∧ (2 ≤ request.length → init request ≠ .crash) := by
  constructor
  · intro h
    have hr : readUInt16BE request 0 = none := by
      unfold readUInt16BE
      rw [if_neg (by omega)]
    have h1 : init request = .crash := by
      unfold init
      rw [hr]
    rw [h1]
    exact ⟨rfl, rfl⟩
  · intro h
    have hr : readUInt16BE request 0 =
        some (256 * request.getD 0 0 + request.getD 1 0) := by
      unfold readUInt16BE
      rw [if_pos (by omega)]
    unfold init
    rw [hr]
    split
    · rename_i heq
      exact Option.noConfusion heq
    · split
      · simp
      · dsimp only
        split <;> simp

/-- Witness for C10 at the concrete requests `[7]` (too short) and
`[0, 1]` (long enough). -/
theorem init_short_request_witness :
    (init [7] = .crash ∧ errorDatagrams (init [7]) = []) ∧ init [0, 1] ≠ .crash :=
  ⟨(init_short_request [7]).1 (by decide), (init_short_request [0, 1]).2 (by decide)⟩

/-- The byte length of a string equals its character count (`strBytes`
maps each character to one byte; the source's messages are ASCII). -/
theorem strBytes_length (s : String) : (strBytes s).length = s.length := by
  cases s
  simp [strBytes, String.length]

/-- Dropping as many elements as a leading replicate block removes exactly
that block. -/
theorem drop_replicate_self (n : Nat) (t : List Nat) :
    (List.replicate n 0 ++ t).drop n = t := by
  induction n with
  | zero => rfl
  | succ n ih => simp [List.replicate_succ, ih]

/-- The ERROR datagram laid out byte by byte: opcode 5, the mapped error
code, the message bytes, and the final zero-filled byte that
`Buffer.alloc(5 + length)` leaves untouched. -/
theorem mkError_eq (msg : String) :
    mkError msg = uint16BEbytes 5 ++ uint16BEbytes (getErrorCode msg) ++ strBytes msg ++ [0] := by
  have hA : bufAlloc (5 + msg.length) = [0, 0, 0, 0, 0] ++ List.replicate msg.length 0 := by
    unfold bufAlloc
    rw [List.replicate_add]
    rfl
  have hlen0 : ([0, 0, 0, 0, 0] ++ List.replicate msg.length (0 : Nat)).length =
      5 + msg.length := by
    simp
    omega
  have hB : bufWrite16BE ([0, 0, 0, 0, 0] ++ List.replicate msg.length 0) 0 5 =
      some ([0, 5, 0, 0, 0] ++ List.replicate msg.length 0) := by
    unfold bufWrite16BE
    rw [if_pos ⟨by omega, by rw [hlen0]; omega⟩]
    simp [List.set]
  set code := getErrorCode msg with hcode
  have hcl : code < 65536 := by
    rw [hcode]
    unfold getErrorCode
    split_ifs <;> omega
  have hlen1 : ([0, 5, 0, 0, 0] ++ List.replicate msg.length (0 : Nat)).length =
      5 + msg.length := by
    simp
    omega
  have hC : bufWrite16BE ([0, 5, 0, 0, 0] ++ List.replicate msg.length 0) 2 code =
      some ([0, 5, code / 256 % 256, code % 256, 0] ++ List.replicate msg.length 0) := by
    unfold bufWrite16BE
    rw [if_pos ⟨hcl, by rw [hlen1]; omega⟩]
    simp [List.set]
  unfold mkError
  rw [hA, hB]
  show bufWriteStr
      ((bufWrite16BE ([0, 5, 0, 0, 0] ++ List.replicate msg.length 0) 2 code).getD []) 4 msg =
    uint16BEbytes 5 ++ uint16BEbytes code ++ strBytes msg ++ [0]
  rw [hC]
  show bufWriteStr ([0, 5, code / 256 % 256, code % 256, 0] ++ List.replicate msg.length 0) 4 msg =
    uint16BEbytes 5 ++ uint16BEbytes code ++ strBytes msg ++ [0]
  unfold bufWriteStr
  have hlen : ([0, 5, code / 256 % 256, code % 256, 0] ++ List.replicate msg.length 0).length =
      5 + msg.length := by
    simp
    omega
  rw [hlen]
  have htake4 : ([0, 5, code / 256 % 256, code % 256, 0] ++ List.replicate msg.length 0).take 4 =
      [0, 5, code / 256 % 256, code % 256] := by
    simp [List.take]
  have htakeS : (strBytes msg).take (5 + msg.length - 4) = strBytes msg := by
    apply List.take_of_length_le
    rw [strBytes_length]
    omega
  have hdrop : ([0, 5, code / 256 % 256, code % 256, 0] ++ List.replicate msg.length 0).drop
      (4 + (strBytes msg).length) = [0] := by
    rw [strBytes_length]
    rw [show (4 + msg.length) = msg.length + 4 by omega]
    show (0 :: 5 :: (code / 256 % 256) :: (code % 256) :: (0 :: List.replicate msg.length 0)).drop
      (msg.length + 4) = [0]
    simp only [List.drop_succ_cons]
    rw [show (0 :: List.replicate msg.length 0) = List.replicate msg.length 0 ++ [0] from by
      rw [← List.replicate_succ']
      rfl]
    exact drop_replicate_self _ _
  rw [htake4, htakeS, hdrop]
  simp [uint16BEbytes]

/-- Claim C4, counterexample: the ERROR datagram for "File not found."
(message length 15) is 20 bytes long, not 4 + 15 = 19 — the claim's
"total length is exactly 4 plus the message length, no trailing NUL" is
false on the code, which allocates `5 + length` zero-filled bytes. -/
theorem mkError_length_counterexample :
    (mkError "File not found.").length ≠ 4 + ("File not found.").length := by decide

/-- Claim C4 (amended): every ERROR datagram the connection emits consists
of the 16-bit opcode 5, the 16-bit mapped error code, and the error
message bytes followed by a single trailing NUL byte — its total length is
exactly 5 plus the message length. -/
theorem mkError_layout (msg : String) :
    mkError msg = uint16BEbytes 5 ++ uint16BEbytes (getErrorCode msg) ++ strBytes msg ++ [0]
    ∧ (mkError msg).length = 5 + msg.length := by
  refine ⟨mkError_eq msg, ?_⟩
  rw [mkError_eq msg]
  simp [uint16BEbytes, strBytes_length]
  omega

/-- Claim C2: when no ACK ever arrives for a DATA block, starting
`sendDataPacket` with a fresh retry counter transmits the identical
prepared packet exactly 4 times (1 initial send + 3 timeout-driven
retries) and then terminates with no ERROR datagram: 9 scheduler steps
reach `finished` with an empty error output and exactly four copies of
`ctx.packet` sent. -/
theorem sendDataPacket_retry_bound (ctx : Ctx) (h : ctx.tryCount = 0) :
    runTimeouts 9 (.run .sendDataPacket ctx) =
      (.finished [], [ctx.packet, ctx.packet, ctx.packet, ctx.packet]) := by
  obtain ⟨fn, mo, op, da, bl, bs, tc, pk⟩ := ctx
  simp only at h
  subst h
  rfl

/-- Witness for C2 at a concrete context. -/
theorem sendDataPacket_retry_bound_witness :
    runTimeouts 9 (.run .sendDataPacket { packet := [0, 3, 0, 1, 9] }) =
      (.finished [], [[0, 3, 0, 1, 9], [0, 3, 0, 1, 9], [0, 3, 0, 1, 9], [0, 3, 0, 1, 9]]) :=
  sendDataPacket_retry_bound { packet := [0, 3, 0, 1, 9] } rfl

/-- Claim C3: while a connection is awaiting an ACK (waiting in `oack` or
`sendDataPacket`), an inbound datagram whose opcode is not 4 or whose
block number differs from the expected one (0 for the OACK, `ctx.block`
for the current DATA packet) produces the identical waiting configuration
— same context, same retry counter, same armed listener and timeout — and
sends nothing; a matching ACK delivered later still advances the machine
(to `prepareDataPacket`, or for a short final DATA packet to the terminal
state). -/
theorem mismatched_datagram_ignored (ctx : Ctx) (m : Msg) :
    ((m.op ≠ 4 ∨ m.blk ≠ 0) →
      deliver (.waiting .oackSt ctx) (.msg m) = (.waiting .oackSt ctx, []))
    ∧ ((m.op ≠ 4 ∨ m.blk ≠ ctx.block) →
      deliver (.waiting .sendDataPacket ctx) (.msg m) = (.waiting .sendDataPacket ctx, []))
    ∧ deliver (.waiting .oackSt ctx) (.msg ⟨4, 0⟩) = (.run .prepareDataPacket ctx, [])
    ∧ (deliver (.waiting .sendDataPacket ctx) (.msg ⟨4, ctx.block⟩) = (.finished [], [])
       ∨ deliver (.waiting .sendDataPacket ctx) (.msg ⟨4, ctx.block⟩) =
           (.run .prepareDataPacket ctx, [])) := by
  refine ⟨?_, ?_, ?_, ?_⟩
  · intro hm
    rcases hm with hm | hm <;> simp [deliver, hm]
  · intro hm
    rcases hm with hm | hm <;> simp [deliver, hm]
  · simp [deliver]
  · by_cases hp : ctx.packet.length = ctx.blocksize + 4
    · right
      simp [deliver, hp]
    · left
      simp [deliver, hp]

/-- Witness for C3 at a concrete context and a wrong-opcode datagram. -/
theorem mismatched_datagram_ignored_witness :
    (deliver (.waiting .oackSt ({} : Ctx)) (.msg ⟨3, 7⟩) = (.waiting .oackSt {}, []))
    ∧ (deliver (.waiting .sendDataPacket ({} : Ctx)) (.msg ⟨3, 7⟩) =
        (.waiting .sendDataPacket {}, []))
    ∧ deliver (.waiting .oackSt ({} : Ctx)) (.msg ⟨4, 0⟩) = (.run .prepareDataPacket {}, [])
    ∧ (deliver (.waiting .sendDataPacket ({} : Ctx)) (.msg ⟨4, ({} : Ctx).block⟩) =
        (.finished [], [])
       ∨ deliver (.waiting .sendDataPacket ({} : Ctx)) (.msg ⟨4, ({} : Ctx).block⟩) =
           (.run .prepareDataPacket {}, [])) :=
  ⟨(mismatched_datagram_ignored {} ⟨3, 7⟩).1 (Or.inl (by decide)),
   (mismatched_datagram_ignored {} ⟨3, 7⟩).2.1 (Or.inl (by decide)),
   (mismatched_datagram_ignored {} ⟨3, 7⟩).2.2.1,
   (mismatched_datagram_ignored {} ⟨3, 7⟩).2.2.2⟩

/-- A non-`blksize` option never changes the negotiated block size. -/
theorem oackOption_ne_blksize (dataLen bs : Nat) (k v : Bytes)
    (hk : k ≠ strBytes "blksize") : (oackOption dataLen bs k v).1 = bs := by
  unfold oackOption
  rw [if_neg hk]
  split_ifs <;> rfl

/-- Folding the OACK pass over options without a `blksize` key keeps the
block size and only appends bytes to the packet body. -/
theorem oackFold_ne_blksize (dataLen : Nat) (l : OptMap) :
    ∀ bs body, (∀ p ∈ l, p.1 ≠ strBytes "blksize") →
      (oackFold dataLen (bs, body) l).1 = bs
      ∧ ∃ rest, (oackFold dataLen (bs, body) l).2 = body ++ rest := by
  induction l with
  | nil =>
    intro bs body _
    exact ⟨rfl, [], by simp [oackFold]⟩
  | cons p t ih =>
    intro bs body hl
    have hp : p.1 ≠ strBytes "blksize" := hl p (by simp)
    have ht : ∀ q ∈ t, q.1 ≠ strBytes "blksize" := fun q hq => hl q (by simp [hq])
    have hstep : oackFold dataLen (bs, body) (p :: t) =
        oackFold dataLen (bs, body ++ (oackOption dataLen bs p.1 p.2).2) t := by
      unfold oackFold
      rw [List.foldl_cons]
      dsimp only
      rw [oackOption_ne_blksize dataLen bs p.1 p.2 hp]
    rw [hstep]
    obtain ⟨h1, rest, h2⟩ := ih bs (body ++ (oackOption dataLen bs p.1 p.2).2) ht
    refine ⟨h1, (oackOption dataLen bs p.1 p.2).2 ++ rest, ?_⟩
    rw [h2]
    simp

/-- Claim C5: for every request whose options contain a `blksize` key with
a numeric value `n` (the options mapping is key-unique, so the key occurs
once), entering the `oack` state (within the retry bound) arms the OACK
wait with the connection's effective block size set to `min n 1428`, and
the single OACK packet sent carries the accepted value
`String(min n 1428)` for `blksize`; in particular `"2000"` negotiates 1428
and `"100"` negotiates 100 (see the witness). -/
theorem blksize_negotiated (ctx : Ctx) (pre post : OptMap) (v : Bytes) (n : Nat)
    (hopts : ctx.options = pre ++ (strBytes "blksize", v) :: post)
    (hpre : ∀ p ∈ pre, p.1 ≠ strBytes "blksize")
    (hpost : ∀ p ∈ post, p.1 ≠ strBytes "blksize")
    (hn : decValue? v = some n)
    (htry : ctx.tryCount ≤ 3) :
    ∃ preB postB,
      enter .oackSt ctx =
        (.waiting .oackSt
          { ctx with tryCount := ctx.tryCount + 1, blocksize := min n 1428 },
         [(bufWrite16BE (bufAlloc 2) 0 6).getD [] ++
           (preB ++ (strBytes "blksize" ++ [0] ++ natStr (min n 1428) ++ [0]) ++ postB)]) := by
  have hne : ctx.options ≠ [] := by
    rw [hopts]
    simp
  obtain ⟨hpre1, preB, hpre2⟩ :=
    oackFold_ne_blksize ctx.data.length pre ctx.blocksize [] hpre
  have hblk : oackOption ctx.data.length ctx.blocksize (strBytes "blksize") v =
      (min n 1428, strBytes "blksize" ++ [0] ++ natStr (min n 1428) ++ [0]) := by
    unfold oackOption
    rw [if_pos rfl, hn]
  obtain ⟨hpost1, postB, hpost2⟩ :=
    oackFold_ne_blksize ctx.data.length post (min n 1428)
      (preB ++ (strBytes "blksize" ++ [0] ++ natStr (min n 1428) ++ [0])) hpost
  have hfold : oackFold ctx.data.length (ctx.blocksize, []) ctx.options =
      (min n 1428,
        preB ++ (strBytes "blksize" ++ [0] ++ natStr (min n 1428) ++ [0]) ++ postB) := by
    rw [hopts]
    unfold oackFold
    rw [List.foldl_append]
    have hacc : (oackFold ctx.data.length (ctx.blocksize, []) pre) = (ctx.blocksize, preB) := by
      have := hpre1
      have := hpre2
      cases hf : oackFold ctx.data.length (ctx.blocksize, []) pre with
      | mk a b =>
        rw [hf] at hpre1 hpre2
        simp at hpre1 hpre2
        simp [hpre1, hpre2]
    unfold oackFold at hacc
    rw [hacc, List.foldl_cons]
    dsimp only
    rw [hblk]
    have hacc2 := hpost2
    cases hf : oackFold ctx.data.length
        (min n 1428, preB ++ (strBytes "blksize" ++ [0] ++ natStr (min n 1428) ++ [0])) post with
    | mk a b =>
      rw [hf] at hpost1 hpost2
      simp only at hpost1 hpost2
      unfold oackFold at hf
      rw [hf]
      simp [hpost1, hpost2]
  refine ⟨preB, postB, ?_⟩
  simp only [enter]
  rw [if_neg (by simp; omega)]
  rw [if_neg (by simpa using hne)]
  simp only [hfold]

/-- Witness for C5: a requested blksize of "2000" negotiates
`min 2000 1428 = 1428` and a requested blksize of "100" negotiates
`min 100 1428 = 100`. -/
theorem blksize_negotiated_witness :
    (∃ preB postB,
      enter .oackSt { options := [(strBytes "blksize", strBytes "2000")] } =
        (.waiting .oackSt
          { options := [(strBytes "blksize", strBytes "2000")],
            tryCount := 1, blocksize := min 2000 1428 },
         [(bufWrite16BE (bufAlloc 2) 0 6).getD [] ++
           (preB ++ (strBytes "blksize" ++ [0] ++ natStr (min 2000 1428) ++ [0]) ++ postB)]))
    ∧ (∃ preB postB,
      enter .oackSt { options := [(strBytes "blksize", strBytes "100")] } =
        (.waiting .oackSt
          { options := [(strBytes "blksize", strBytes "100")],
            tryCount := 1, blocksize := min 100 1428 },
         [(bufWrite16BE (bufAlloc 2) 0 6).getD [] ++
           (preB ++ (strBytes "blksize" ++ [0] ++ natStr (min 100 1428) ++ [0]) ++ postB)])) :=
  ⟨blksize_negotiated _ [] [] _ 2000 rfl (by simp) (by simp) (by decide) (by decide),
   blksize_negotiated _ [] [] _ 100 rfl (by simp) (by simp) (by decide) (by decide)⟩

/-- `Map.set` keeps the key list unchanged when the key is present and
appends the key at the end otherwise. -/
theorem keysOf_mapSet (m : OptMap) (k v : Bytes) :
    keysOf (mapSet m k v) = if k ∈ keysOf m then keysOf m else keysOf m ++ [k] := by
  induction m with
  | nil => simp [mapSet, keysOf]
  | cons p t ih =>
    obtain ⟨k', v'⟩ := p
    by_cases hk : k' = k
    · subst hk
      simp [mapSet, keysOf]
    · simp only [mapSet, if_neg hk, keysOf, List.map_cons] at ih ⊢
      rw [ih]
      by_cases hm : k ∈ List.map Prod.fst t
      · rw [if_pos hm, if_pos (by simp [List.mem_cons, hm])]
      · rw [if_neg hm, if_neg (by simp [List.mem_cons, hm, Ne.symm hk])]
        simp

/-- Looking up the key just set yields the new value. -/
theorem mapGet?_mapSet_self (m : OptMap) (k v : Bytes) :
    mapGet? (mapSet m k v) k = some v := by
  induction m with
  | nil => simp [mapSet, mapGet?]
  | cons p t ih =>
    obtain ⟨k', v'⟩ := p
    by_cases hk : k' = k
    · subst hk
      simp [mapSet, mapGet?]
    · simp [mapSet, mapGet?, hk, ih]

/-- Setting one key does not change lookups of another. -/
theorem mapGet?_mapSet_ne (m : OptMap) (k v q : Bytes) (hq : q ≠ k) :
    mapGet? (mapSet m k v) q = mapGet? m q := by
  induction m with
  | nil => simp [mapSet, mapGet?, Ne.symm hq]
  | cons p t ih =>
    obtain ⟨k', v'⟩ := p
    by_cases hk : k' = k
    · subst hk
      simp [mapSet, mapGet?, Ne.symm hq]
    · simp only [mapSet, if_neg hk, mapGet?]
      by_cases h2 : k' = q <;> simp [h2, ih]

/-- Inserting a pair list leaves each key bound to its last written value,
or to its prior binding when the list never writes it. -/
theorem insertAll_get (k : Bytes) :
    ∀ (ps : List (Bytes × Bytes)) (m : OptMap),
      mapGet? (insertAll m ps) k =
        match lastVal? ps k with
        | some v => some v
        | none => mapGet? m k := by
  intro ps
  induction ps with
  | nil =>
    intro m
    simp [insertAll, lastVal?]
  | cons p t ih =>
    intro m
    obtain ⟨a, b⟩ := p
    have hstep : insertAll m ((a, b) :: t) = insertAll (mapSet m a b) t := by
      simp [insertAll]
    rw [hstep, ih]
    cases hl : lastVal? t k with
    | some v => simp [lastVal?, hl]
    | none =>
      simp only [lastVal?, hl]
      by_cases ha : a = k
      · subst ha
        simp [mapGet?_mapSet_self]
      · simp [ha, mapGet?_mapSet_ne m a b k (Ne.symm ha)]

/-- `keepFirstAux` only depends on which keys have been seen, not on the
order or multiplicity of the seen list. -/
theorem keepFirstAux_congr : ∀ (l s1 s2 : List Bytes),
    (∀ x, x ∈ s1 ↔ x ∈ s2) → keepFirstAux s1 l = keepFirstAux s2 l := by
  intro l
  induction l with
  | nil =>
    intro s1 s2 _
    rfl
  | cons k ks ih =>
    intro s1 s2 hs
    simp only [keepFirstAux]
    by_cases hk : k ∈ s1
    · rw [if_pos hk, if_pos ((hs k).mp hk)]
      exact ih s1 s2 hs
    · rw [if_neg hk, if_neg (fun h => hk ((hs k).mpr h))]
      congr 1
      apply ih
      intro x
      simp [List.mem_cons, hs x]

/-- The key order of a `mapSet` fold: the keys of the prior mapping
followed by the unseen keys in order of first occurrence. -/
theorem keysOf_insertAll : ∀ (ps : List (Bytes × Bytes)) (m : OptMap),
    keysOf (insertAll m ps) = keysOf m ++ keepFirstAux (keysOf m) (keysOf ps) := by
  intro ps
  induction ps with
  | nil =>
    intro m
    simp [insertAll, keepFirstAux, keysOf]
  | cons p t ih =>
    intro m
    obtain ⟨a, b⟩ := p
    have hstep : insertAll m ((a, b) :: t) = insertAll (mapSet m a b) t := by
      simp [insertAll]
    rw [hstep, ih, keysOf_mapSet]
    have h1 : keysOf ((a, b) :: t) = a :: keysOf t := rfl
    rw [h1]
    by_cases ha : a ∈ keysOf m
    · rw [if_pos ha]
      simp only [keepFirstAux]
      rw [if_pos ha]
    · rw [if_neg ha]
      simp only [keepFirstAux]
      rw [if_neg ha, List.append_assoc, List.singleton_append]
      congr 2
      apply keepFirstAux_congr
      intro x
      simp [List.mem_append, List.mem_cons]
      tauto

/-- First-occurrence deduplication yields a duplicate-free list whose
members are exactly the unseen members of the input. -/
theorem keepFirstAux_nodup_mem : ∀ (l seen : List Bytes),
    (keepFirstAux seen l).Nodup
    ∧ ∀ x, x ∈ keepFirstAux seen l ↔ (x ∈ l ∧ x ∉ seen) := by
  intro l
  induction l with
  | nil =>
    intro seen
    simp [keepFirstAux]
  | cons k ks ih =>
    intro seen
    simp only [keepFirstAux]
    by_cases hk : k ∈ seen
    · rw [if_pos hk]
      obtain ⟨h1, h2⟩ := ih seen
      refine ⟨h1, fun x => ?_⟩
      rw [h2 x]
      constructor
      · rintro ⟨hx, hs⟩
        exact ⟨List.mem_cons_of_mem _ hx, hs⟩
      · rintro ⟨hx, hs⟩
        rcases List.mem_cons.mp hx with rfl | hx
        · exact absurd hk hs
        · exact ⟨hx, hs⟩
    · rw [if_neg hk]
      obtain ⟨h1, h2⟩ := ih (k :: seen)
      constructor
      · refine List.nodup_cons.mpr ⟨?_, h1⟩
        intro hmem
        exact ((h2 k).mp hmem).2 (List.mem_cons_self _ _)
      · intro x
        simp only [List.mem_cons]
        rw [h2 x]
        simp only [List.mem_cons]
        constructor
        · rintro (rfl | ⟨hx, hs⟩)
          · exact ⟨Or.inl rfl, hk⟩
          · push_neg at hs
            exact ⟨Or.inr hx, hs.2⟩
        · rintro ⟨(rfl | hx), hs⟩
          · exact Or.inl rfl
          · by_cases hxk : x = k
            · exact Or.inl hxk
            · right
              refine ⟨hx, ?_⟩
              push_neg
              exact ⟨hxk, hs⟩

/-- A key that occurs in the pair list has a last value. -/
theorem lastVal?_isSome : ∀ (ps : List (Bytes × Bytes)) (k : Bytes),
    k ∈ keysOf ps → (lastVal? ps k).isSome := by
  intro ps
  induction ps with
  | nil =>
    intro k h
    simp [keysOf] at h
  | cons p t ih =>
    intro k h
    obtain ⟨a, b⟩ := p
    simp only [lastVal?]
    cases hl : lastVal? t k with
    | some v => simp
    | none =>
      have hk : a = k := by
        have hmem : k = a ∨ k ∈ keysOf t := by
          simpa [keysOf, List.mem_cons] using h
        rcases hmem with rfl | hmem
        · rfl
        · have := ih k hmem
          rw [hl] at this
          simp at this
      simp [hk]

/-- The option loop is the `mapSet` fold of the non-empty-keyed parsed
pairs over the initial mapping (same fuel on both sides). -/
theorem parseOptsF_eq_insertAll (buf : Bytes) :
    ∀ fuel ptr acc,
      (parseOptsF buf fuel ptr acc).1 =
        insertAll acc ((parsePairsF buf fuel ptr).filter (fun p => p.1 ≠ ([] : Bytes))) := by
  intro fuel
  induction fuel with
  | zero =>
    intro ptr acc
    simp [parseOptsF, parsePairsF, insertAll]
  | succ fuel ih =>
    intro ptr acc
    rw [parseOptsF, parsePairsF]
    by_cases hr : endReached buf ptr
    · simp [hr, insertAll]
    · rw [if_neg hr, if_neg hr, List.filter_cons]
      by_cases hk : (cstr buf ptr).1 = []
      · rw [if_pos hk, ih]
        simp [hk]
      · rw [if_neg hk, ih]
        have hp : (decide ¬((cstr buf ptr).1, (cstr buf (cstr buf ptr).2).1).1 = ([] : Bytes)) = true := by
          simp [hk]
        rw [if_pos hp]
        have hins : insertAll acc
            (((cstr buf ptr).1, (cstr buf (cstr buf ptr).2).1) ::
              (parsePairsF buf fuel (cstr buf (cstr buf ptr).2).2).filter
                (fun p => p.1 ≠ ([] : Bytes))) =
            insertAll (mapSet acc (cstr buf ptr).1 (cstr buf (cstr buf ptr).2).1)
              ((parsePairsF buf fuel (cstr buf (cstr buf ptr).2).2).filter
                (fun p => p.1 ≠ ([] : Bytes))) := by
          simp [insertAll]
        rw [hins]

/-- In a duplicate-free list every member has count one. -/
theorem count_one_of_nodup_mem : ∀ (l : List Bytes) (k : Bytes),
    l.Nodup → k ∈ l → l.count k = 1 := by
  intro l
  induction l with
  | nil =>
    intro k _ hm
    simp at hm
  | cons a t ih =>
    intro k hd hm
    have hd' := List.nodup_cons.mp hd
    by_cases hka : k = a
    · subst hka
      rw [List.count_cons_self, List.count_eq_zero.mpr hd'.1]
    · have hmt : k ∈ t := by
        rcases List.mem_cons.mp hm with h | h
        · exact absurd h hka
        · exact h
      rw [List.count_cons, ih k hd'.2 hmt]
      simp [Ne.symm hka]

/-- Claim C6: if a non-empty option key occurs more than once among the
request's parsed option pairs, the parsed options mapping contains that
key exactly once, bound to the value of the last occurrence, and the
mapping's key order is the first-occurrence order of the parsed pairs (so
the key sits at the insertion position of its first occurrence). -/
theorem duplicate_option_key (buf : Bytes) (ptr : Nat) (k : Bytes)
    (hdup : 2 ≤ (keysOf ((parsePairs buf ptr).filter (fun p => p.1 ≠ ([] : Bytes)))).count k) :
    (keysOf (parseOpts buf ptr []).1).count k = 1
    ∧ mapGet? (parseOpts buf ptr []).1 k =
        lastVal? ((parsePairs buf ptr).filter (fun p => p.1 ≠ ([] : Bytes))) k
    ∧ (lastVal? ((parsePairs buf ptr).filter (fun p => p.1 ≠ ([] : Bytes))) k).isSome
    ∧ keysOf (parseOpts buf ptr []).1 =
        keepFirst (keysOf ((parsePairs buf ptr).filter (fun p => p.1 ≠ ([] : Bytes)))) := by
  have hopts : (parseOpts buf ptr []).1 =
      insertAll [] ((parsePairs buf ptr).filter (fun p => p.1 ≠ ([] : Bytes))) := by
    unfold parseOpts parsePairs
    exact parseOptsF_eq_insertAll buf (buf.length + 2 - ptr) ptr []
  have hmem : k ∈ keysOf ((parsePairs buf ptr).filter (fun p => p.1 ≠ ([] : Bytes))) := by
    by_contra hnm
    rw [List.count_eq_zero.mpr hnm] at hdup
    omega
  have hkeys : keysOf (parseOpts buf ptr []).1 =
      keepFirst (keysOf ((parsePairs buf ptr).filter (fun p => p.1 ≠ ([] : Bytes)))) := by
    rw [hopts, keysOf_insertAll]
    rfl
  obtain ⟨hnd, hmemiff⟩ :=
    keepFirstAux_nodup_mem (keysOf ((parsePairs buf ptr).filter (fun p => p.1 ≠ ([] : Bytes)))) []
  have hsome := lastVal?_isSome _ k hmem
  refine ⟨?_, ?_, hsome, hkeys⟩
  · rw [hkeys]
    apply count_one_of_nodup_mem _ _ hnd
    rw [hmemiff k]
    exact ⟨by simpa using hmem, by simp⟩
  · rw [hopts, insertAll_get]
    cases hl : lastVal? ((parsePairs buf ptr).filter (fun p => p.1 ≠ ([] : Bytes))) k with
    | some v => simp
    | none =>
      rw [hl] at hsome
      simp at hsome

/-- Witness for C6: the option region `a\0x\0a\0y\0` binds `a` once, to
`y`, in first position. -/
theorem duplicate_option_key_witness :
    (keysOf (parseOpts [97, 0, 120, 0, 97, 0, 121, 0] 0 []).1).count [97] = 1
    ∧ mapGet? (parseOpts [97, 0, 120, 0, 97, 0, 121, 0] 0 []).1 [97] =
        lastVal? ((parsePairs [97, 0, 120, 0, 97, 0, 121, 0] 0).filter
          (fun p => p.1 ≠ ([] : Bytes))) [97]
    ∧ (lastVal? ((parsePairs [97, 0, 120, 0, 97, 0, 121, 0] 0).filter
        (fun p => p.1 ≠ ([] : Bytes))) [97]).isSome
    ∧ keysOf (parseOpts [97, 0, 120, 0, 97, 0, 121, 0] 0 []).1 =
        keepFirst (keysOf ((parsePairs [97, 0, 120, 0, 97, 0, 121, 0] 0).filter
          (fun p => p.1 ≠ ([] : Bytes)))) :=
  duplicate_option_key [97, 0, 120, 0, 97, 0, 121, 0] 0 [97] (by decide)

/-- One scheduler step of a driven run from a scheduled state entry. -/
theorem runWith_run (pick : State → Ctx → Event) (fuel : Nat) (s : State) (ctx : Ctx) :
    runWith pick (fuel + 1) (.run s ctx) =
      ((runWith pick fuel (enter s ctx).1).1,
       (enter s ctx).2 ++ (runWith pick fuel (enter s ctx).1).2) := rfl

/-- One scheduler step of a driven run from a waiting state. -/
theorem runWith_waiting (pick : State → Ctx → Event) (fuel : Nat) (s : State) (ctx : Ctx) :
    runWith pick (fuel + 1) (.waiting s ctx) =
      ((runWith pick fuel (deliver (.waiting s ctx) (pick s ctx)).1).1,
       (deliver (.waiting s ctx) (pick s ctx)).2 ++
         (runWith pick fuel (deliver (.waiting s ctx) (pick s ctx)).1).2) := rfl

/-- A terminal configuration stays terminal and sends nothing. -/
theorem runWith_finished (pick : State → Ctx → Event) (fuel : Nat) (e : List Bytes) :
    runWith pick fuel (.finished e) = (.finished e, []) := by
  cases fuel <;> rfl

/-- While the wire block number fits in 16 bits, `prepareDataPacket`
builds the packet, advances the block counter, resets the retry counter
and schedules `sendDataPacket`. -/
theorem enter_prepare (ctx : Ctx) (h : ctx.block + 1 < 65536) :
    enter .prepareDataPacket ctx =
      (.run .sendDataPacket
        { ctx with packet := dataPacket ctx, block := ctx.block + 1, tryCount := 0 }, []) := by
  have h1 : bufWrite16BE (bufAlloc 4) 0 3 = some [0, 3, 0, 0] := rfl
  have h2 : bufWrite16BE [0, 3, 0, 0] 2 (ctx.block + 1) =
      some [0, 3, (ctx.block + 1) / 256 % 256, (ctx.block + 1) % 256] := by
    unfold bufWrite16BE
    rw [if_pos ⟨h, by decide⟩]
    rfl
  simp only [enter, h1, h2, dataPacket]

/-- Once the wire block number would exceed 16 bits, `writeUInt16BE`
throws and `prepareDataPacket` crashes the connection: no packet is
built and nothing further is sent. -/
theorem enter_prepare_crash (ctx : Ctx) (h : 65536 ≤ ctx.block + 1) :
    enter .prepareDataPacket ctx = (.crashed, []) := by
  have h1 : bufWrite16BE (bufAlloc 4) 0 3 = some [0, 3, 0, 0] := rfl
  have h2 : bufWrite16BE [0, 3, 0, 0] 2 (ctx.block + 1) = none := by
    unfold bufWrite16BE
    rw [if_neg (by omega)]
  simp only [enter, h1, h2]

/-- Within the retry bound, `sendDataPacket` sends the prepared packet and
waits. -/
theorem enter_send (ctx : Ctx) (h : ctx.tryCount ≤ 3) :
    enter .sendDataPacket ctx =
      (.waiting .sendDataPacket { ctx with tryCount := ctx.tryCount + 1 }, [ctx.packet]) := by
  simp only [enter]
  rw [if_neg (by omega)]

/-- A matching ACK for a full-size packet schedules the next block. -/
theorem deliver_ack_full (ctx : Ctx) (h : ctx.packet.length = ctx.blocksize + 4) :
    deliver (.waiting .sendDataPacket ctx) (.msg ⟨4, ctx.block⟩) =
      (.run .prepareDataPacket ctx, []) := by
  simp [deliver, h]

/-- A matching ACK for a short packet ends the transfer silently. -/
theorem deliver_ack_short (ctx : Ctx) (h : ctx.packet.length ≠ ctx.blocksize + 4) :
    deliver (.waiting .sendDataPacket ctx) (.msg ⟨4, ctx.block⟩) = (.finished [], []) := by
  simp [deliver, h]

/-- The always-acking client sends the expected block number to a waiting
`sendDataPacket`. -/
theorem ackedPick_send (ctx : Ctx) :
    ackedPick .sendDataPacket ctx = .msg ⟨4, ctx.block⟩ := rfl

/-- The DATA header is 4 bytes, so the packet is 4 bytes plus the chunk. -/
theorem dataPacket_length (ctx : Ctx) :
    (dataPacket ctx).length =
      4 + ((ctx.data.drop (ctx.block * ctx.blocksize)).take ctx.blocksize).length := by
  simp [dataPacket, bufWrite16BE, bufAlloc]
  omega

/-- Preparing and sending a short chunk (fewer than `blocksize` bytes)
under an acking client: one DATA packet is sent and the matching ACK ends
the transfer silently. -/
theorem runAcked_last_block (ctx : Ctx) (hblk : ctx.block + 1 < 65536)
    (hb : (dataPacket ctx).length ≠ ctx.blocksize + 4) :
    runAcked 3 (.run .prepareDataPacket ctx) = (.finished [], [dataPacket ctx]) := by
  show runWith ackedPick (2 + 1) (.run .prepareDataPacket ctx) = _
  rw [runWith_run, enter_prepare _ hblk]
  show (((runWith ackedPick (1 + 1)) _).1, _ ++ ((runWith ackedPick (1 + 1)) _).2) = _
  rw [runWith_run, enter_send _ (by simp)]
  show (((runWith ackedPick (0 + 1)) _).1, _) = _
  rw [runWith_waiting, ackedPick_send]
  rw [show (⟨4, ({ ctx with
        packet := dataPacket ctx, block := ctx.block + 1,
        tryCount := 0 + 1 } : Ctx).block⟩ : Msg) =
      ⟨4, ctx.block + 1⟩ from rfl]
  rw [deliver_ack_short _ (by simpa using hb)]
  rw [runWith_finished]
  simp

/-- Preparing and sending a full chunk under an acking client: the DATA
packet goes out, the matching ACK arrives, and the machine re-enters block
preparation with the block counter advanced. -/
theorem runAcked_full_block (ctx : Ctx) (fuel : Nat) (hblk : ctx.block + 1 < 65536)
    (hb : (dataPacket ctx).length = ctx.blocksize + 4) :
    runAcked (fuel + 3) (.run .prepareDataPacket ctx) =
      ((runAcked fuel (.run .prepareDataPacket
          { ctx with packet := dataPacket ctx, block := ctx.block + 1, tryCount := 1 })).1,
       dataPacket ctx :: (runAcked fuel (.run .prepareDataPacket
          { ctx with packet := dataPacket ctx, block := ctx.block + 1, tryCount := 1 })).2) := by
  show runWith ackedPick ((fuel + 2) + 1) (.run .prepareDataPacket ctx) = _
  rw [runWith_run, enter_prepare _ hblk]
  show (((runWith ackedPick ((fuel + 1) + 1)) _).1, _ ++ ((runWith ackedPick ((fuel + 1) + 1)) _).2) = _
  rw [runWith_run, enter_send _ (by simp)]
  show (((runWith ackedPick (fuel + 1)) _).1, _) = _
  rw [runWith_waiting, ackedPick_send]
  rw [show (⟨4, ({ ctx with
        packet := dataPacket ctx, block := ctx.block + 1,
        tryCount := 0 + 1 } : Ctx).block⟩ : Msg) =
      ⟨4, ctx.block + 1⟩ from rfl]
  rw [deliver_ack_full _ (by simpa using hb)]
  simp [runAcked]

/-- When at least one more full block of data remains, the prepared packet
has full size. -/
theorem chunk_full (ctx : Ctx) (k : Nat)
    (hlen : ctx.data.length = (ctx.block + (k + 1)) * ctx.blocksize) :
    (dataPacket ctx).length = ctx.blocksize + 4 := by
  rw [dataPacket_length]
  have h1 : ((ctx.data.drop (ctx.block * ctx.blocksize)).take ctx.blocksize).length =
      ctx.blocksize := by
    simp only [List.length_take, List.length_drop]
    have h2 : (ctx.block + (k + 1)) * ctx.blocksize =
        ctx.block * ctx.blocksize + k * ctx.blocksize + ctx.blocksize := by ring
    omega
  omega

/-- When the data source is exhausted, the prepared packet is header-only
(zero-length payload). -/
theorem chunk_empty (ctx : Ctx) (hlen : ctx.data.length = ctx.block * ctx.blocksize) :
    (dataPacket ctx).length = 4 := by
  rw [dataPacket_length]
  have hd : ctx.data.drop (ctx.block * ctx.blocksize) = [] := by
    apply List.drop_eq_nil_of_le
    omega
  rw [hd]
  simp

/-- The acked transfer loop: with `k` full blocks of data left past the
current block, the run sends `k + 1` DATA packets (the last one
header-only) and terminates silently. -/
theorem runAcked_blocks (k : Nat) :
    ∀ ctx : Ctx, 0 < ctx.blocksize →
      ctx.block + k + 1 ≤ 65535 →
      ctx.data.length = (ctx.block + k) * ctx.blocksize →
      ∃ outs, runAcked (3 * k + 3) (.run .prepareDataPacket ctx) = (.finished [], outs)
        ∧ outs.length = k + 1
        ∧ ∃ p, outs.getLast? = some p ∧ p.length = 4 := by
  induction k with
  | zero =>
    intro ctx hbs hwire hlen
    have hpl : (dataPacket ctx).length = 4 := chunk_empty ctx (by simpa using hlen)
    have hb : (dataPacket ctx).length ≠ ctx.blocksize + 4 := by omega
    exact ⟨[dataPacket ctx], runAcked_last_block ctx (by omega) hb, rfl, dataPacket ctx, rfl, hpl⟩
  | succ k ih =>
    intro ctx hbs hwire hlen
    have hpl : (dataPacket ctx).length = ctx.blocksize + 4 := chunk_full ctx k hlen
    obtain ⟨outs, h1, h2, p, h3, h4⟩ := ih
      { ctx with packet := dataPacket ctx, block := ctx.block + 1, tryCount := 1 }
      (by simpa using hbs)
      (by
        simp only
        omega)
      (by
        simp only
        rw [hlen]
        ring)
    refine ⟨dataPacket ctx :: outs, ?_, by simp [h2], p, ?_, h4⟩
    · have hf : 3 * (k + 1) + 3 = (3 * k + 3) + 3 := by ring
      rw [hf, runAcked_full_block ctx (3 * k + 3) (by omega) hpl, h1]
    · cases outs with
      | nil => simp at h2
      | cons y t =>
        rw [List.getLast?_cons_cons]
        exact h3

/-- Claim C1, counterexample: the claim as stated quantifies over every
negotiated blockSize and every N. Two reachable violations. First, a
requested blksize of "0" negotiates an effective block size of 0 (first
conjunct); with `blockSize = 0` and an empty data source (length
`0 = N × 0` for every `N`, in particular `N = 0`, for which the claim
demands exactly one DATA packet followed by successful termination),
every prepared packet is header-only with length `4 = blockSize + 4`, so
each ACK schedules yet another block: after 12 scheduler steps of the
fully-acked run, four DATA packets have already been sent and the machine
is back in `prepareDataPacket` at block 4 (second conjunct) — outputs
only grow with further steps, so the transfer never terminates and sends
more than one DATA packet. Second, block numbers are 16-bit on the wire:
once 65535 blocks have been acknowledged (N ≥ 65535, e.g. a
65535-byte source at blockSize 1), preparing the next packet calls
`writeUInt16BE(65536, 2)`, which throws and crashes the connection (third
conjunct) instead of completing the transfer with N + 1 packets. -/
theorem transfer_zero_blocksize_counterexample :
    (oackFold 0 (512, []) [(strBytes "blksize", strBytes "0")]).1 = 0
    ∧ runAcked 12 (.run .prepareDataPacket { data := [], blocksize := 0 }) =
        (.run .prepareDataPacket
          { data := [], blocksize := 0, block := 4, tryCount := 1, packet := [0, 3, 0, 4] },
         [[0, 3, 0, 1], [0, 3, 0, 2], [0, 3, 0, 3], [0, 3, 0, 4]])
    ∧ enter .prepareDataPacket
        { data := List.replicate 65535 1, blocksize := 1, block := 65535 } = (.crashed, []) := by
  refine ⟨by decide, rfl, ?_⟩
  exact enter_prepare_crash _ (by simp)

/-- Claim C1 (amended): provided the negotiated blockSize is positive and
the data source spans at most 65535 wire blocks (`N + 1 ≤ 65535`, the
16-bit block-number range — beyond it `writeUInt16BE` throws, see the
counterexample), for every data source whose length is exactly
`N × blockSize` the fully-acked transfer terminates silently after
sending exactly `N + 1` DATA packets, the last of which is header-only
(zero-length payload); and for every data source shorter than blockSize
exactly one DATA packet is sent before successful termination. -/
theorem transfer_block_count :
    (∀ (ctx : Ctx) (N : Nat), 0 < ctx.blocksize → N + 1 ≤ 65535 → ctx.block = 0 →
      ctx.data.length = N * ctx.blocksize →
      ∃ outs, runAcked (3 * N + 3) (.run .prepareDataPacket ctx) = (.finished [], outs)
        ∧ outs.length = N + 1 ∧ ∃ p, outs.getLast? = some p ∧ p.length = 4)
    ∧ (∀ ctx : Ctx, ctx.block = 0 → ctx.data.length < ctx.blocksize →
      runAcked 3 (.run .prepareDataPacket ctx) = (.finished [], [dataPacket ctx])) := by
  constructor
  · intro ctx N hbs hN hb hlen
    apply runAcked_blocks N ctx hbs (by omega)
    rw [hb]
    simpa using hlen
  · intro ctx hb hlen
    apply runAcked_last_block _ (by omega)
    rw [dataPacket_length]
    have h1 : ((ctx.data.drop (ctx.block * ctx.blocksize)).take ctx.blocksize).length =
        ctx.data.length := by
      rw [hb]
      simp only [Nat.zero_mul, List.drop_zero, List.length_take]
      omega
    omega

/-- Witness for C1 at a 4-byte source with block size 2 (N = 2: three DATA
packets) and a 1-byte source with the default block size 512 (one DATA
packet). -/
theorem transfer_block_count_witness :
    (∃ outs, runAcked (3 * 2 + 3)
        (.run .prepareDataPacket { data := [1, 2, 3, 4], blocksize := 2 }) =
          (.finished [], outs)
      ∧ outs.length = 2 + 1 ∧ ∃ p, outs.getLast? = some p ∧ p.length = 4)
    ∧ runAcked 3 (.run .prepareDataPacket { data := [9] }) =
        (.finished [], [dataPacket { data := [9] }]) :=
  ⟨transfer_block_count.1 { data := [1, 2, 3, 4], blocksize := 2 } 2
      (by decide) (by omega) rfl (by decide),
   transfer_block_count.2 { data := [9] } rfl (by decide)⟩
